import Mathlib

/-!
Verification of the hybrid retrieval engine of the rag-project repository.

The Lean definitions below are a shallow embedding of the Python sources:
  - backend/app/services/retrieval.py   (score fusion, pure-vector and hybrid search)
  - backend/app/services/rerank.py      (external reranker adapter with fallback)
  - backend/app/services/vector_db.py   (per-document shard construction)
  - backend/app/storage/faiss_index.py  (per-document FAISS shards, scoped and
                                         scatter-gather search, shard build)
  - backend/app/storage/metadata.py     (chunk metadata store with lazy
                                         reconstruction from chunk-source files)

Python floats are modelled as rationals; Python dicts (insertion ordered) as
association lists; the external FAISS index and its query answers as an opaque
search function bundled with the metric tag; external HTTP calls as an outcome
parameter enumerating the branches the code distinguishes.
-/

set_option maxRecDepth 4000

namespace Rag

/-! ### Definitions (shallow embedding of the sources) -/

/-- Models the score conversion in retrieval.py (both in `search`, mode 1, and in
`_combine_results`): the Python code is
`1.0/(1.0+dist) if isinstance(dist, float) and dist > 0 else (float(dist) if dist > 0 else 0.0)`.
Every score reaching this expression was produced by `float(...)` in
faiss_index.py, so the `isinstance` test is true and the conditional reduces to
the test `dist > 0`. -/
def vecSimilarity (dist : ℚ) : ℚ :=
  if 0 < dist then 1 / (1 + dist) else 0

/-- Models the Python dict update `scores[cid] = scores.get(cid, 0) + add` on an
insertion-ordered dict represented as an association list: an existing key keeps
its position, a new key is appended at the end. -/
def updScore (scores : List (String × ℚ)) (cid : String) (add : ℚ) : List (String × ℚ) :=
  match scores with
  | [] => [(cid, add)]
  | (c, v) :: rest => if c = cid then (c, v + add) :: rest else (c, v) :: updScore rest cid add

/-- Python dict lookup `d.get(key)` on the association-list model. -/
def dictLookup {β : Type} (d : List (String × β)) (key : String) : Option β :=
  match d with
  | [] => none
  | (c, v) :: rest => if c = key then some v else dictLookup rest key

/-- The accumulation loops of `_combine_results`: fold a candidate list into the
scores dict, adding `f p` for each candidate `p`. -/
def accumScores (f : String × ℚ → ℚ) (l : List (String × ℚ)) (init : List (String × ℚ)) :
    List (String × ℚ) :=
  l.foldl (fun acc p => updScore acc p.1 (f p)) init

/-- The weighted vector-side contribution of one candidate: `similarity * 0.7`
with `similarity` as computed in `_combine_results`. -/
def vecContribFn (p : String × ℚ) : ℚ := vecSimilarity p.2 * (7/10)

/-- The weighted lexical-side contribution of one candidate:
`(score / 10.0) * 0.3` as in `_combine_results`. -/
def bm25ContribFn (p : String × ℚ) : ℚ := p.2 / 10 * (3/10)

/-- The scores dict built by `_combine_results` before sorting: first the loop
over `vector_results`, then the loop over `bm25_results` on the same dict. -/
def fusedDict (vector_results bm25_results : List (String × ℚ)) : List (String × ℚ) :=
  accumScores bm25ContribFn bm25_results (accumScores vecContribFn vector_results [])

/-- Models `sorted(scores.items(), key=lambda x: x[1], reverse=True)`: a stable
sort, descending in the score component. -/
def sortDescBySnd (l : List (String × ℚ)) : List (String × ℚ) :=
  l.mergeSort (fun a b => decide (b.2 ≤ a.2))

/-- Models RetrievalService._combine_results (retrieval.py lines 233-250). -/
def combineResults (vector_results bm25_results : List (String × ℚ)) : List (String × ℚ) :=
  sortDescBySnd (fusedDict vector_results bm25_results)

/-- The total contribution a chunk id receives from one candidate list
(summing over duplicate occurrences of the id). -/
def sumContrib (f : String × ℚ → ℚ) (l : List (String × ℚ)) (cid : String) : ℚ :=
  ((l.filter (fun p => decide (p.1 = cid))).map f).sum

/-- The fused score a chunk id gets from the vector list, following the code:
zero when the id is absent from the list. -/
def vecSideScore (vector_results : List (String × ℚ)) (cid : String) : ℚ :=
  match dictLookup vector_results cid with
  | some d => vecSimilarity d * (7/10)
  | none => 0

/-- The fused score a chunk id gets from the lexical list, following the code:
zero when the id is absent from the list. -/
def bm25SideScore (bm25_results : List (String × ℚ)) (cid : String) : ℚ :=
  match dictLookup bm25_results cid with
  | some b => b / 10 * (3/10)
  | none => 0

/-- Value of a decimal digit run, most significant first; none on a non-digit. -/
def digitsVal (acc : ℕ) : List Char → Option ℕ
  | [] => some acc
  | c :: cs => if c.isDigit then digitsVal (acc * 10 + (c.toNat - ('0' : Char).toNat)) cs else none

/-- Models Python str.strip(): removes leading and trailing whitespace. -/
def pyStrip (s : String) : String :=
  String.mk (((s.toList.dropWhile Char.isWhitespace).reverse.dropWhile Char.isWhitespace).reverse)

/-- Models Python int(s) on the strings reaching it in get_chunk: optional
surrounding whitespace, an optional sign, then decimal digits; none models the
ValueError the code catches. -/
def pyInt (s : String) : Option ℤ :=
  match (pyStrip s).toList with
  | [] => none
  | '-' :: cs => if cs = [] then none else (digitsVal 0 cs).map (fun n => -(n : ℤ))
  | '+' :: cs => if cs = [] then none else (digitsVal 0 cs).map (fun n => (n : ℤ))
  | cs => (digitsVal 0 cs).map (fun n => (n : ℤ))

/-- Models the test `'_' in chunk_id` followed by `chunk_id.rsplit('_', 1)`:
split at the last underscore. -/
def rsplitUnderscore (s : String) : Option (String × String) :=
  if ('_' : Char) ∈ s.toList then
    let r := s.toList.reverse
    let afterRev := r.takeWhile (fun c => c ≠ '_')
    let beforeRev := (r.dropWhile (fun c => c ≠ '_')).drop 1
    some (String.mk beforeRev.reverse, String.mk afterRev.reverse)
  else none

/-- Models pathlib Path(s).name: the part after the last path separator. -/
def pathName (s : String) : String :=
  String.mk ((s.toList.reverse.takeWhile (fun c => c ≠ '/')).reverse)

/-- Models pathlib Path(s).stem: the name with its last non-empty extension
removed, keeping a leading dot intact. -/
def pathStem (s : String) : String :=
  let revN := (pathName s).toList.reverse
  let afterDot := revN.takeWhile (fun c => c ≠ '.')
  if afterDot.length + 1 < revN.length ∧ afterDot ≠ [] then
    String.mk ((revN.drop (afterDot.length + 1)).reverse)
  else pathName s

/-- Models matching the page pattern of metadata.py (a hash sign, optional
whitespace, the CJK marker for page start, optional whitespace, digits, optional
whitespace, the CJK page character) at one fixed position of the text. -/
def matchPageAt : List Char → Option ℕ
  | '#' :: rest =>
    match rest.dropWhile Char.isWhitespace with
    | '第' :: r2 =>
      let r3 := r2.dropWhile Char.isWhitespace
      match r3.takeWhile Char.isDigit with
      | [] => none
      | d :: ds =>
        match (r3.dropWhile Char.isDigit).dropWhile Char.isWhitespace with
        | '页' :: _ => digitsVal 0 (d :: ds)
        | _ => none
    | _ => none
  | _ => none

/-- Models re.search with the page pattern: the leftmost position at which the
pattern matches, scanning the text left to right. -/
def findPageNum : List Char → Option ℕ
  | [] => none
  | c :: rest =>
    match matchPageAt (c :: rest) with
    | some n => some n
    | none => findPageNum rest

/-- One entry of the content.chunks array of a chunk-source JSON file, with the
dict.get defaults of metadata.py folded in: text defaults to the empty string,
page is the optional explicit page field, lines is the stored line span. -/
structure SrcChunk where
  text : String
  page : Option ℤ
  lines : List ℤ
deriving DecidableEq, Repr

/-- The parsed shape of a chunk-source JSON file: metainfo.sha1,
metainfo.file_name (none models a missing key) and content.chunks. -/
structure SrcFile where
  sha1 : Option String
  file_name : Option String
  chunks : List SrcChunk
deriving DecidableEq, Repr

/-- A file of the chunked-reports directory: its stem and its parse result;
none models a json.load failure, which get_chunk catches and skips. -/
structure JsonFile where
  stem : String
  data : Option SrcFile
deriving DecidableEq, Repr

/-- A chunk dict as built by MetadataStorage.get_chunk. The similarity and
rerank_score fields model the keys added later by the retrieval pipeline
(none = key absent). -/
structure RDoc where
  chunk_id : String
  document_name : String
  section_path : List String
  text : String
  posStart : ℤ
  posEnd : ℤ
  page_num : Option ℤ
  meta_sha1 : String
  meta_file_name : String
  meta_lines : List ℤ
  similarity : Option ℚ
  rerank_score : Option ℚ
deriving DecidableEq, Repr

/-- MetadataStorage state: the in-memory chunks dict plus the chunked-reports
directory listing (none models a directory that does not exist). -/
structure MetaStore where
  chunks : List (String × RDoc)
  dir : Option (List JsonFile)
deriving DecidableEq, Repr

/-- Builds the chunk dict of metadata.py lines 85-118 for a matching source
file and entry. -/
def buildChunkDict (chunk_id sha1 : String) (jf : JsonFile) (d : SrcFile) (cd : SrcChunk) : RDoc :=
  let file_name := d.file_name.getD jf.stem
  let document_name := if file_name ≠ "" then pathStem file_name else jf.stem
  let page_num : Option ℤ :=
    match cd.page with
    | some p => some p
    | none => (findPageNum cd.text.toList).map (fun n => (n : ℤ))
  let posStart : ℤ :=
    match cd.lines with
    | a :: _ => a
    | [] => 0
  let posEnd : ℤ :=
    match cd.lines with
    | _ :: b :: _ => b
    | [a] => a
    | [] => 0
  { chunk_id := chunk_id
    document_name := document_name
    section_path := []
    text := cd.text
    posStart := posStart
    posEnd := posEnd
    page_num := page_num
    meta_sha1 := sha1
    meta_file_name := file_name
    meta_lines := cd.lines
    similarity := none
    rerank_score := none }

/-- One iteration of the scan loop of get_chunk over a single directory file:
none models every way the loop falls through to the next file (parse failure,
sha1 mismatch, ordinal out of range, empty or whitespace-only text). -/
def reconstructFrom (chunk_id sha1 : String) (index : ℤ) (jf : JsonFile) : Option RDoc :=
  match jf.data with
  | none => none
  | some d =>
    if d.sha1 = some sha1 then
      if 0 ≤ index ∧ index < (d.chunks.length : ℤ) then
        match d.chunks.get? index.toNat with
        | some cd =>
          if cd.text ≠ "" ∧ pyStrip cd.text ≠ "" then
            some (buildChunkDict chunk_id sha1 jf d cd)
          else none
        | none => none
      else none
    else none

/-- The directory scan of get_chunk: the first successful reconstruction,
together with the number of files examined. -/
def scanFiles (chunk_id sha1 : String) (index : ℤ) : List JsonFile → Option RDoc × ℕ
  | [] => (none, 0)
  | jf :: rest =>
    match reconstructFrom chunk_id sha1 index jf with
    | some doc => (some doc, 1)
    | none =>
      let r := scanFiles chunk_id sha1 index rest
      (r.1, r.2 + 1)

/-- Models MetadataStorage.get_chunk (metadata.py lines 45-130). Returns the
result, the post-call store, and the number of source files the directory scan
examined (0 when the in-memory dict answers or the id is malformed). -/
def getChunk (st : MetaStore) (chunk_id : String) : Option RDoc × MetaStore × ℕ :=
  match dictLookup st.chunks chunk_id with
  | some d => (some d, st, 0)
  | none =>
    match rsplitUnderscore chunk_id with
    | none => (none, st, 0)
    | some (sha1, index_str) =>
      match pyInt index_str with
      | none => (none, st, 0)
      | some index =>
        match st.dir with
        | none => (none, st, 0)
        | some files =>
          match scanFiles chunk_id sha1 index files with
          | (some doc, n) => (some doc, { st with chunks := st.chunks ++ [(chunk_id, doc)] }, n)
          | (none, n) => (none, st, n)

/-- An RDoc with every key at its default; used to model Python list indexing,
whose out-of-range case (an IndexError) is never reached in the theorems. -/
def defaultRDoc : RDoc :=
  { chunk_id := "", document_name := "", section_path := [], text := "", posStart := 0,
    posEnd := 0, page_num := none, meta_sha1 := "", meta_file_name := "", meta_lines := [],
    similarity := none, rerank_score := none }

/-- Python list indexing documents[i], including the negative-index wraparound. -/
def pyListGet (docs : List RDoc) (i : ℤ) : RDoc :=
  if 0 ≤ i then (docs.get? i.toNat).getD defaultRDoc
  else (docs.get? (docs.length - (-i).toNat)).getD defaultRDoc

/-- One entry of the results array of a rerank API response, with the
item.get defaults of rerank.py folded in (index defaults to 0, relevance_score
to 0.0). -/
structure RerankItem where
  index : ℤ
  relevance : ℚ
deriving DecidableEq, Repr

/-- The outcomes of the external rerank HTTP call that rerank.py
distinguishes: a requests.RequestException (unreachable service, timeout, or a
raise_for_status error such as 401), any other exception (e.g. an unparseable
response body), or a decoded JSON response whose results key is present
(some items) or absent (none). -/
inductive RerankOutcome where
  | requestError
  | otherError
  | ok (results : Option (List RerankItem))
deriving DecidableEq, Repr

/-- Models sorted(documents, key=lambda x: x.get("similarity", 0.0),
reverse=True): a stable sort, descending in the similarity field. -/
def sortBySimDesc (documents : List RDoc) : List RDoc :=
  documents.mergeSort (fun a b => decide (b.similarity.getD 0 ≤ a.similarity.getD 0))

/-- The success-path loop of rerank.py lines 82-91: keep items whose index is
below the document count, copy the document and overwrite its scores. -/
def rerankStep (documents : List RDoc) (acc : List RDoc) (it : RerankItem) : List RDoc :=
  if it.index < (documents.length : ℤ) then
    acc ++ [{ pyListGet documents it.index with
              similarity := some it.relevance, rerank_score := some it.relevance }]
  else acc

/-- Models RerankService.rerank (rerank.py lines 32-112). hasKey models
whether JINA_API_KEY is set; outcome models the external call. -/
def rerank (hasKey : Bool) (outcome : RerankOutcome) (documents : List RDoc) (top_k : ℕ) :
    List RDoc :=
  if documents = [] then []
  else if ¬hasKey then (sortBySimDesc documents).take top_k
  else
    match outcome with
    | .requestError => (sortBySimDesc documents).take top_k
    | .otherError => (sortBySimDesc documents).take top_k
    | .ok none => []
    | .ok (some items) => items.foldl (rerankStep documents) []

/-- One iteration of the hydration loop of the hybrid branch (retrieval.py
lines 197-206): fetch the chunk dict and set its similarity to the fused
score, skipping ids the store cannot resolve. -/
def hydrateStep (acc : List RDoc × MetaStore) (p : String × ℚ) : List RDoc × MetaStore :=
  match (getChunk acc.2 p.1).1 with
  | some d => (acc.1 ++ [{ d with similarity := some p.2 }], (getChunk acc.2 p.1).2.1)
  | none => (acc.1, (getChunk acc.2 p.1).2.1)

/-- The hydration loop of the hybrid branch over a fused candidate list. -/
def hydrateCombined (ms : MetaStore) (l : List (String × ℚ)) : List RDoc × MetaStore :=
  l.foldl hydrateStep ([], ms)

/-- One iteration of the pure-vector loop (retrieval.py lines 141-156): fetch
the chunk dict and set its similarity to the converted score. -/
def pureStep (acc : List RDoc × MetaStore) (p : String × ℚ) : List RDoc × MetaStore :=
  match (getChunk acc.2 p.1).1 with
  | some d => (acc.1 ++ [{ d with similarity := some (vecSimilarity p.2) }], (getChunk acc.2 p.1).2.1)
  | none => (acc.1, (getChunk acc.2 p.1).2.1)

/-- Models the pure-vector branch of RetrievalService.search (mode 1,
retrieval.py lines 136-164): hydrate the first top_k vector candidates,
converting each raw score with the distance-to-similarity expression. -/
def pureVectorTail (ms : MetaStore) (vector_results : List (String × ℚ)) (top_k : ℕ) :
    List RDoc × MetaStore :=
  (vector_results.take top_k).foldl pureStep ([], ms)

/-- Models the hybrid branch of RetrievalService.search after BM25
(retrieval.py lines 188-231): fuse the two candidate lists, hydrate the first
20 fused candidates, then rerank (the call on line 222 leaves rerank's top_k
at its default of 10) and truncate to the requested top_k; with no hydrated
candidates the list is returned truncated without reranking. -/
def hybridTail (ms : MetaStore) (vector_results bm25_results : List (String × ℚ)) (top_k : ℕ)
    (hasKey : Bool) (outcome : RerankOutcome) : List RDoc × MetaStore :=
  let combined := combineResults vector_results bm25_results
  let hyd := hydrateCombined ms (combined.take 20)
  if hyd.1 ≠ [] then ((rerank hasKey outcome hyd.1 10).take top_k, hyd.2)
  else (hyd.1.take top_k, hyd.2)

/-- A candidate document carrying only a similarity, as hydrated by the
pipeline before reranking. -/
def simDoc (cid : String) (s : ℚ) : RDoc :=
  { defaultRDoc with chunk_id := cid, similarity := some s }

/-- Sum of squares of the components of a query vector: it is positive exactly
when np.linalg.norm of the vector is positive, which is the test the code
performs before normalizing the query. -/
def sumSq (q : List ℚ) : ℚ := (q.map (fun x => x * x)).sum

/-- Models the numpy query normalization np_query / np.linalg.norm(np_query).
The true scaling factor is an irrational square root, unrepresentable over ℚ;
since each index's search function is opaque (external FAISS), no theorem
depends on the scaling, and a positive rational stand-in divisor is used. -/
def npNormalize (q : List ℚ) : List ℚ := q.map (fun x => x / sumSq q)

/-- An external FAISS index object: its metric tag (isIP models
isinstance(index, faiss.IndexFlatIP)) and its opaque top-k answer function,
returning the (position, score) rows of index.search; -1 models the padding
position FAISS emits when fewer than k vectors exist. -/
structure FaissIdx where
  isIP : Bool
  search : List ℚ → ℕ → List (ℤ × ℚ)

/-- The in-memory state of a FAISSIndex instance: whether an index_dir is
configured, the per-document index registry and chunk-id maps (insertion
ordered), and the optional global single-file index with its id list. -/
structure FAISSState where
  hasIndexDir : Bool
  document_indices : List (String × FaissIdx)
  document_chunk_maps : List (String × List String)
  globalIndex : Option FaissIdx
  global_chunk_ids : List String

/-- Python list indexing chunk_ids[idx] including negative-index wraparound;
the code guards idx != -1 and idx < len(chunk_ids), and under the FAISS
position contract only in-range non-negative accesses occur. -/
def pyIds (chunk_ids : List String) (i : ℤ) : String :=
  if 0 ≤ i then (chunk_ids.get? i.toNat).getD ""
  else (chunk_ids.get? (chunk_ids.length - (-i).toNat)).getD ""

/-- The result loop shared by the search branches (faiss_index.py lines
198-209, 241-245 and 276-287): keep positions that are not -1 and lie below
the id-list length, mapping each kept position to its chunk id. -/
def candidatesOf (raw : List (ℤ × ℚ)) (chunk_ids : List String) : List (String × ℚ) :=
  raw.foldl (fun acc p =>
    if p.1 ≠ -1 ∧ p.1 < (chunk_ids.length : ℤ) then acc ++ [(pyIds chunk_ids p.1, p.2)]
    else acc) []

/-- The single-shard branch of FAISSIndex.search (lines 174-211): an absent
key yields the empty result; otherwise the shard is searched (normalizing the
query for an inner-product index with positive norm) and positions are mapped
through the shard's chunk-id map, which defaults to the empty list. -/
def scopedSearch (st : FAISSState) (q : List ℚ) (top_k : ℕ) (sha1 : String) :
    List (String × ℚ) :=
  match dictLookup st.document_indices sha1 with
  | none => []
  | some idx =>
    let chunk_ids := (dictLookup st.document_chunk_maps sha1).getD []
    let nq := if idx.isIP ∧ 0 < sumSq q then npNormalize q else q
    candidatesOf (idx.search nq top_k) chunk_ids

/-- The per-shard body of the scatter-gather loop (lines 221-245): a shard
without a chunk-id map is skipped, an inner-product shard normalizes the query
and is skipped entirely for a zero-norm query, and the shard's top-k answers
are mapped through its id list. -/
def shardCandidates (st : FAISSState) (q : List ℚ) (top_k : ℕ) (kv : String × FaissIdx) :
    List (String × ℚ) :=
  let chunk_ids := (dictLookup st.document_chunk_maps kv.1).getD []
  if chunk_ids = [] then []
  else if kv.2.isIP then
    if 0 < sumSq q then candidatesOf (kv.2.search (npNormalize q) top_k) chunk_ids
    else []
  else candidatesOf (kv.2.search q top_k) chunk_ids

/-- Stable ascending sort by score, modelling all_results.sort(key=...) for
the distance metric. -/
def sortAscBySnd (l : List (String × ℚ)) : List (String × ℚ) :=
  l.mergeSort (fun a b => decide (a.2 ≤ b.2))

/-- The scatter-gather branch of FAISSIndex.search (lines 213-264): collect
candidates over the registry in insertion order; when any exist, sort them in
the direction given by the metric of the first registered index and truncate
to top_k, else return the empty result. -/
def scatterSearch (st : FAISSState) (q : List ℚ) (top_k : ℕ) : List (String × ℚ) :=
  let all := st.document_indices.foldl (fun acc kv => acc ++ shardCandidates st q top_k kv) []
  if all ≠ [] then
    let firstIP := ((st.document_indices.head?).map (fun kv => kv.2.isIP)).getD false
    (if firstIP then sortDescBySnd all else sortAscBySnd all).take top_k
  else []

/-- The global single-index branch of FAISSIndex.search (lines 266-289);
none models self.index = None. -/
def globalSearch (st : FAISSState) (q : List ℚ) (top_k : ℕ) : List (String × ℚ) :=
  match st.globalIndex with
  | none => []
  | some idx => candidatesOf (idx.search q top_k) st.global_chunk_ids

/-- Models FAISSIndex.search (faiss_index.py lines 156-289): a truthy
document_sha1 together with a configured index_dir selects the single-shard
branch; a configured index_dir with a non-empty registry selects
scatter-gather; otherwise the global index answers (or the result is empty). -/
def faissSearch (st : FAISSState) (q : List ℚ) (top_k : ℕ) (document_sha1 : Option String) :
    List (String × ℚ) :=
  if (document_sha1.getD "") ≠ "" ∧ st.hasIndexDir then
    scopedSearch st q top_k (document_sha1.getD "")
  else if st.hasIndexDir ∧ st.document_indices.isEmpty = false then
    scatterSearch st q top_k
  else globalSearch st q top_k

/-- The FAISS output contract: every returned position is -1 (padding) or a
non-negative row index. -/
def ValidRaw (raw : List (ℤ × ℚ)) : Prop := ∀ p ∈ raw, p.1 = -1 ∨ 0 ≤ p.1

/-- Written from the spec's words (section 4.1, search without a scopeKey):
run an independent top-k search against every loaded shard, concatenate all
candidates, re-sort them in the metric's natural direction - descending for
similarity, ascending for distance - and truncate to k. -/
def scatterGatherSpec (st : FAISSState) (q : List ℚ) (top_k : ℕ) (isIP : Bool) :
    List (String × ℚ) :=
  let all := (st.document_indices.map (shardCandidates st q top_k)).flatten
  (if isIP then sortDescBySnd all else sortAscBySnd all).take top_k

/-- The artifact and registry state touched by build_index_for_document: the
artifact file names present in the index directory, and the key sets of the
two in-memory registries (what scoped search consults). -/
structure ShardStore where
  fs : List String
  registryKeys : List String
  mapKeys : List String
deriving DecidableEq, Repr

/-- Inserting a key into a dict, keys only: an existing key keeps its
position, a new key is appended. -/
def addKey (keys : List String) (k : String) : List String :=
  if k ∈ keys then keys else keys ++ [k]

/-- Models FAISSIndex.build_index_for_document (faiss_index.py lines 104-154).
wFaissOk and wIdsOk say whether the two artifact writes (faiss.write_index,
then pickle.dump of the id list) succeed; a failed write raises, so the
function reports failure (false) with the state reached so far - the code has
no cleanup of artifacts already written. The in-memory registries are updated
only after both writes. An empty embedding list returns early; a missing
index_dir raises ValueError. -/
def buildIndexForDocument (st : ShardStore) (embeddings : List (List ℚ)) (sha1 : String)
    (hasIndexDir wFaissOk wIdsOk : Bool) : ShardStore × Bool :=
  if embeddings = [] then (st, true)
  else if ¬hasIndexDir then (st, false)
  else if ¬wFaissOk then (st, false)
  else
    let st1 : ShardStore := { st with fs := st.fs ++ [sha1 ++ ".faiss"] }
    if ¬wIdsOk then (st1, false)
    else
      let st2 : ShardStore := { st1 with fs := st1.fs ++ [sha1 ++ ".faiss.ids"] }
      ({ st2 with registryKeys := addKey st2.registryKeys sha1,
                  mapKeys := addKey st2.mapKeys sha1 }, true)

/-- A three-vector inner-product shard answering fixed positions and scores. -/
def idxA : FaissIdx := { isIP := true, search := fun _ k => [((0:ℤ), (9:ℚ)/10), (2, 1/2)].take k }

/-- A two-vector inner-product shard answering a fixed position and score. -/
def idxB : FaissIdx := { isIP := true, search := fun _ k => [((1:ℤ), (3:ℚ)/4)].take k }

/-- A registry with two healthy shards A (3 ids) and B (2 ids). -/
def stW : FAISSState :=
  { hasIndexDir := true
    document_indices := [("A", idxA), ("B", idxB)]
    document_chunk_maps := [("A", ["a0", "a1", "a2"]), ("B", ["b0", "b1"])]
    globalIndex := none
    global_chunk_ids := [] }

/-- A registry where shard D has no chunk-id map (degraded) and shard B is
healthy. -/
def stD : FAISSState :=
  { hasIndexDir := true
    document_indices := [("D", idxA), ("B", idxB)]
    document_chunk_maps := [("B", ["b0", "b1"])]
    globalIndex := none
    global_chunk_ids := [] }

/-- A one-entry chunk-source file with content hash h. -/
def srcC7 : SrcFile :=
  { sha1 := some "h", file_name := some "doc.md",
    chunks := [{ text := "hello", page := some 3, lines := [5, 9] }] }

/-- A store with an empty cache over a directory holding srcC7. -/
def stC7 : MetaStore := { chunks := [], dir := some [{ stem := "r", data := some srcC7 }] }

/-- The chunk that get_chunk reconstructs for id h_0 from srcC7. -/
def cW : RDoc :=
  { chunk_id := "h_0", document_name := "doc", section_path := [], text := "hello",
    posStart := 5, posEnd := 9, page_num := some 3, meta_sha1 := "h",
    meta_file_name := "doc.md", meta_lines := [5, 9], similarity := none, rerank_score := none }

/-- A one-entry chunk-source file whose only entry has whitespace-only text. -/
def srcC10 : SrcFile :=
  { sha1 := some "h", file_name := some "doc.md",
    chunks := [{ text := " ", page := none, lines := [1, 2] }] }

/-- The directory file wrapping srcC10. -/
def jfC10 : JsonFile := { stem := "r", data := some srcC10 }

/-- A store with an empty cache over a directory holding jfC10. -/
def stC10 : MetaStore := { chunks := [], dir := some [jfC10] }

/-! ### Theorems -/

theorem dictLookup_updScore_self (l : List (String × ℚ)) (c : String) (a : ℚ) :
    dictLookup (updScore l c a) c = some ((dictLookup l c).getD 0 + a) := by
  induction l with
  | nil => simp [updScore, dictLookup]
  | cons p rest ih =>
    obtain ⟨c', v⟩ := p
    by_cases h : c' = c
    · subst h
      simp [updScore, dictLookup]
    · simp [updScore, dictLookup, h, ih]

theorem dictLookup_updScore_other (l : List (String × ℚ)) (c c' : String) (a : ℚ)
    (h : c' ≠ c) : dictLookup (updScore l c a) c' = dictLookup l c' := by
  induction l with
  | nil => simp [updScore, dictLookup, Ne.symm h]
  | cons p rest ih =>
    obtain ⟨c₀, v⟩ := p
    by_cases h0 : c₀ = c
    · subst h0
      have : ¬ c₀ = c' := fun hh => h hh.symm
      simp [updScore, dictLookup, this]
    · by_cases h1 : c₀ = c'
      · subst h1
        simp [updScore, dictLookup, h0]
      · simp [updScore, dictLookup, h0, h1, ih]

theorem accumScores_lookup_getD (f : String × ℚ → ℚ) (l : List (String × ℚ)) (cid : String) :
    ∀ init : List (String × ℚ),
      (dictLookup (accumScores f l init) cid).getD 0 =
        (dictLookup init cid).getD 0 + sumContrib f l cid := by
  induction l with
  | nil => intro init; simp [accumScores, sumContrib]
  | cons p rest ih =>
    intro init
    have hstep : accumScores f (p :: rest) init = accumScores f rest (updScore init p.1 (f p)) := by
      simp [accumScores]
    rw [hstep, ih]
    by_cases h : p.1 = cid
    · rw [h, dictLookup_updScore_self]
      have : sumContrib f (p :: rest) cid = f p + sumContrib f rest cid := by
        simp [sumContrib, h]
      rw [this]
      simp [Option.getD_some]
      ring
    · rw [dictLookup_updScore_other _ _ _ _ (fun hh => h hh.symm)]
      have : sumContrib f (p :: rest) cid = sumContrib f rest cid := by
        simp [sumContrib, h]
      rw [this]

theorem accumScores_lookup_isSome (f : String × ℚ → ℚ) (l : List (String × ℚ)) (cid : String) :
    ∀ init : List (String × ℚ),
      (dictLookup (accumScores f l init) cid).isSome =
        ((dictLookup init cid).isSome || decide (cid ∈ l.map Prod.fst)) := by
  induction l with
  | nil => intro init; simp [accumScores]
  | cons p rest ih =>
    intro init
    have hstep : accumScores f (p :: rest) init = accumScores f rest (updScore init p.1 (f p)) := by
      simp [accumScores]
    rw [hstep, ih]
    by_cases h : p.1 = cid
    · rw [h, dictLookup_updScore_self]
      simp [h]
    · rw [dictLookup_updScore_other _ _ _ _ (Ne.symm h)]
      have h' : cid ≠ p.1 := Ne.symm h
      simp [beq_eq_false_iff_ne.mpr h']

theorem dictLookup_eq_none_iff (l : List (String × ℚ)) (cid : String) :
    dictLookup l cid = none ↔ cid ∉ l.map Prod.fst := by
  induction l with
  | nil => simp [dictLookup]
  | cons p rest ih =>
    obtain ⟨c, v⟩ := p
    by_cases h : c = cid
    · subst h
      simp [dictLookup]
    · simp [dictLookup, h, ih, Ne.symm h]

theorem updScore_map_fst (l : List (String × ℚ)) (c : String) (a : ℚ) :
    (updScore l c a).map Prod.fst =
      if c ∈ l.map Prod.fst then l.map Prod.fst else l.map Prod.fst ++ [c] := by
  induction l with
  | nil => simp [updScore]
  | cons p rest ih =>
    obtain ⟨c₀, v⟩ := p
    by_cases h : c₀ = c
    · subst h
      simp [updScore]
    · by_cases h2 : c ∈ rest.map Prod.fst
      · simp [updScore, h, ih, h2, Ne.symm h]
      · simp [updScore, h, ih, h2, Ne.symm h]

theorem updScore_nodup_keys (l : List (String × ℚ)) (c : String) (a : ℚ)
    (h : (l.map Prod.fst).Nodup) : ((updScore l c a).map Prod.fst).Nodup := by
  rw [updScore_map_fst]
  by_cases hm : c ∈ l.map Prod.fst
  · simpa [hm]
  · simpa [hm] using List.Nodup.append h (by simp) (by simpa using hm)

theorem accumScores_nodup_keys (f : String × ℚ → ℚ) (l : List (String × ℚ)) :
    ∀ init : List (String × ℚ), (init.map Prod.fst).Nodup →
      ((accumScores f l init).map Prod.fst).Nodup := by
  induction l with
  | nil => intro init h; simpa [accumScores] using h
  | cons p rest ih =>
    intro init h
    have hstep : accumScores f (p :: rest) init = accumScores f rest (updScore init p.1 (f p)) := by
      simp [accumScores]
    rw [hstep]
    exact ih _ (updScore_nodup_keys _ _ _ h)

theorem mem_iff_dictLookup (l : List (String × ℚ)) (cid : String) (s : ℚ)
    (h : (l.map Prod.fst).Nodup) : (cid, s) ∈ l ↔ dictLookup l cid = some s := by
  induction l with
  | nil => simp [dictLookup]
  | cons p rest ih =>
    obtain ⟨c, v⟩ := p
    simp only [List.map_cons, List.nodup_cons] at h
    by_cases hc : c = cid
    · subst hc
      simp only [dictLookup, if_pos rfl, List.mem_cons]
      constructor
      · rintro (heq | hmem)
        · simpa using heq.symm
        · exact absurd (List.mem_map_of_mem Prod.fst hmem) h.1
      · rintro heq
        left
        simpa using heq.symm
    · simp only [dictLookup, if_neg hc, List.mem_cons]
      rw [← ih h.2]
      constructor
      · rintro (heq | hmem)
        · exact absurd (congrArg Prod.fst heq).symm hc
        · exact hmem
      · exact fun hmem => Or.inr hmem

theorem sumContrib_of_nodup (f : String × ℚ → ℚ) (l : List (String × ℚ)) (cid : String)
    (h : (l.map Prod.fst).Nodup) :
    sumContrib f l cid =
      match dictLookup l cid with
      | some v => f (cid, v)
      | none => 0 := by
  induction l with
  | nil => simp [sumContrib, dictLookup]
  | cons p rest ih =>
    obtain ⟨c, v⟩ := p
    simp only [List.map_cons, List.nodup_cons] at h
    by_cases hc : c = cid
    · subst hc
      have hnone : dictLookup rest c = none :=
        (dictLookup_eq_none_iff rest c).2 h.1
      have hzero : sumContrib f rest c = 0 := by
        have : rest.filter (fun p => decide (p.1 = c)) = [] := by
          rw [List.filter_eq_nil_iff]
          intro p hp hdec
          exact h.1 (by
            have : p.1 = c := by simpa using hdec
            simpa [← this] using List.mem_map_of_mem Prod.fst hp)
        simp [sumContrib, this]
      simp [sumContrib, dictLookup, List.filter_cons, hzero]
      simp [sumContrib] at hzero
      simp [hzero]
    · have : sumContrib f ((c, v) :: rest) cid = sumContrib f rest cid := by
        simp [sumContrib, List.filter_cons, hc]
      rw [this, ih h.2]
      simp [dictLookup, hc]

theorem fusedDict_lookup (vr br : List (String × ℚ)) (cid : String)
    (hv : (vr.map Prod.fst).Nodup) (hb : (br.map Prod.fst).Nodup) :
    dictLookup (fusedDict vr br) cid =
      if cid ∈ vr.map Prod.fst ∨ cid ∈ br.map Prod.fst then
        some (vecSideScore vr cid + bm25SideScore br cid)
      else none := by
  have hisSome : (dictLookup (fusedDict vr br) cid).isSome =
      (decide (cid ∈ vr.map Prod.fst) || decide (cid ∈ br.map Prod.fst)) := by
    rw [fusedDict, accumScores_lookup_isSome, accumScores_lookup_isSome]
    simp [dictLookup, Bool.or_comm]
  have hgetD : (dictLookup (fusedDict vr br) cid).getD 0 =
      vecSideScore vr cid + bm25SideScore br cid := by
    rw [fusedDict, accumScores_lookup_getD, accumScores_lookup_getD]
    rw [sumContrib_of_nodup _ _ _ hv, sumContrib_of_nodup _ _ _ hb]
    simp only [dictLookup, Option.getD_none, zero_add]
    unfold vecSideScore bm25SideScore vecContribFn bm25ContribFn
    cases dictLookup vr cid <;> cases dictLookup br cid <;> simp
  by_cases hmem : cid ∈ vr.map Prod.fst ∨ cid ∈ br.map Prod.fst
  · rw [if_pos hmem]
    have : (dictLookup (fusedDict vr br) cid).isSome = true := by
      rw [hisSome]
      rcases hmem with h | h <;> simp [h]
    obtain ⟨v, hv2⟩ := Option.isSome_iff_exists.1 this
    rw [hv2] at hgetD ⊢
    simpa using congrArg some hgetD
  · rw [if_neg hmem]
    push_neg at hmem
    have hf : (dictLookup (fusedDict vr br) cid).isSome = false := by
      rw [hisSome]
      simp [hmem.1, hmem.2]
    cases h2 : dictLookup (fusedDict vr br) cid with
    | none => rfl
    | some v => rw [h2] at hf; simp at hf

theorem mem_combineResults_iff (vr br : List (String × ℚ)) (cid : String) (s : ℚ)
    (hv : (vr.map Prod.fst).Nodup) (hb : (br.map Prod.fst).Nodup) :
    (cid, s) ∈ combineResults vr br ↔
      ((cid ∈ vr.map Prod.fst ∨ cid ∈ br.map Prod.fst) ∧
        s = vecSideScore vr cid + bm25SideScore br cid) := by
  have hperm : List.Perm (combineResults vr br) (fusedDict vr br) := by
    simpa [combineResults, sortDescBySnd] using List.mergeSort_perm (fusedDict vr br) _
  rw [hperm.mem_iff]
  have hnodup : ((fusedDict vr br).map Prod.fst).Nodup := by
    apply accumScores_nodup_keys
    apply accumScores_nodup_keys
    simp
  rw [mem_iff_dictLookup _ _ _ hnodup, fusedDict_lookup vr br cid hv hb]
  by_cases hmem : cid ∈ vr.map Prod.fst ∨ cid ∈ br.map Prod.fst
  · simp only [if_pos hmem, Option.some_inj]
    constructor
    · exact fun h => ⟨hmem, h.symm⟩
    · exact fun h => h.2.symm
  · rw [if_neg hmem]
    constructor
    · intro h
      exact Option.noConfusion h
    · intro h
      exact absurd h.1 hmem

theorem dictLookup_append_of_none {β : Type} (l : List (String × β)) (cid : String) (v : β)
    (h : dictLookup l cid = none) : dictLookup (l ++ [(cid, v)]) cid = some v := by
  induction l with
  | nil => simp [dictLookup]
  | cons p rest ih =>
    obtain ⟨c, w⟩ := p
    by_cases hc : c = cid
    · subst hc
      simp [dictLookup] at h
    · simp only [dictLookup, if_neg hc] at h
      simpa [dictLookup, hc] using ih h

theorem reconstructFrom_eq_none_of_ws (chunk_id sha1 : String) (index : ℤ) (jf : JsonFile)
    (h : ∀ d, jf.data = some d → d.sha1 = some sha1 →
      ∀ cd, d.chunks.get? index.toNat = some cd → pyStrip cd.text = "") :
    reconstructFrom chunk_id sha1 index jf = none := by
  cases hd : jf.data with
  | none => simp [reconstructFrom, hd]
  | some d =>
    unfold reconstructFrom
    rw [hd]
    dsimp only
    by_cases hs : d.sha1 = some sha1
    · rw [if_pos hs]
      by_cases hb : 0 ≤ index ∧ index < (d.chunks.length : ℤ)
      · rw [if_pos hb]
        cases hg : d.chunks.get? index.toNat with
        | none => rfl
        | some cd =>
          have hw := h d hd hs cd hg
          dsimp only
          rw [if_neg (by simp [hw])]
      · rw [if_neg hb]
    · rw [if_neg hs]

theorem scanFiles_all_none (chunk_id sha1 : String) (index : ℤ) (files : List JsonFile)
    (h : ∀ jf ∈ files, reconstructFrom chunk_id sha1 index jf = none) :
    scanFiles chunk_id sha1 index files = (none, files.length) := by
  induction files with
  | nil => rfl
  | cons jf rest ih =>
    have h1 := h jf (by simp)
    have h2 := ih (fun x hx => h x (by simp [hx]))
    simp [scanFiles, h1, h2]

theorem getChunk_miss_some (st : MetaStore) (cid : String) (c : RDoc)
    (hmiss : dictLookup st.chunks cid = none)
    (hres : (getChunk st cid).1 = some c) :
    ∃ n : ℕ,
      getChunk st cid = (some c, { chunks := st.chunks ++ [(cid, c)], dir := st.dir }, n) := by
  unfold getChunk at hres ⊢
  simp only [hmiss] at hres ⊢
  cases hsplit : rsplitUnderscore cid with
  | none => simp [hsplit] at hres
  | some p =>
    obtain ⟨sha1, idxStr⟩ := p
    simp only [hsplit] at hres ⊢
    cases hint : pyInt idxStr with
    | none => simp [hint] at hres
    | some index =>
      simp only [hint] at hres ⊢
      cases hdir : st.dir with
      | none => simp [hdir] at hres
      | some files =>
        simp only [hdir] at hres ⊢
        cases hscan : scanFiles cid sha1 index files with
        | mk r n =>
          cases r with
          | none => simp [hscan] at hres
          | some doc =>
            simp only [hscan] at hres
            simp at hres
            subst hres
            refine ⟨n, ?_⟩
            simp only [hscan]

/-- C7: for a chunk id successfully reconstructed lazily from a source file,
the reconstructed chunk is inserted into the in-memory cache before being
returned, and a second get for that id returns the identical value from the
cache with no further directory scan. -/
theorem c7_reconstruction_idempotent (st : MetaStore) (cid : String) (c : RDoc)
    (hmiss : dictLookup st.chunks cid = none)
    (hres : (getChunk st cid).1 = some c) :
    dictLookup (getChunk st cid).2.1.chunks cid = some c ∧
    getChunk (getChunk st cid).2.1 cid = (some c, (getChunk st cid).2.1, 0) := by
  obtain ⟨n, hstep⟩ := getChunk_miss_some st cid c hmiss hres
  have hcache : dictLookup (st.chunks ++ [(cid, c)]) cid = some c :=
    dictLookup_append_of_none _ _ _ hmiss
  constructor
  · rw [hstep]
    exact hcache
  · rw [hstep]
    unfold getChunk
    simp only [hcache]

/-- C10: for a chunk id of the form hash-underscore-ordinal whose matching
source file exists but whose entry at that ordinal has empty or
whitespace-only text, get_chunk returns none and caches nothing, even though
the source entry exists; the scan examines every file of the directory. -/
theorem c10_whitespace_text_not_found (st : MetaStore) (cid sha1 idxStr : String) (index : ℤ)
    (files : List JsonFile)
    (hmiss : dictLookup st.chunks cid = none)
    (hsplit : rsplitUnderscore cid = some (sha1, idxStr))
    (hint : pyInt idxStr = some index)
    (hdir : st.dir = some files)
    (hsrc : ∃ jf ∈ files, ∃ d, jf.data = some d ∧ d.sha1 = some sha1 ∧
      ∃ cd, d.chunks.get? index.toNat = some cd)
    (hws : ∀ jf ∈ files, ∀ d, jf.data = some d → d.sha1 = some sha1 →
      ∀ cd, d.chunks.get? index.toNat = some cd → pyStrip cd.text = "") :
    getChunk st cid = (none, st, files.length) := by
  have hscan : scanFiles cid sha1 index files = (none, files.length) :=
    scanFiles_all_none cid sha1 index files
      (fun jf hjf => reconstructFrom_eq_none_of_ws cid sha1 index jf (hws jf hjf))
  unfold getChunk
  simp only [hmiss, hsplit, hint, hdir, hscan]

/-- C3 counterexample: with an API key set and an HTTP-success response whose
JSON body lacks the results key (a malformed response), rerank returns the
empty list, not the candidates sorted by similarity descending - so the claim
that every rerank failure falls back to the sorted input is false on the code
for the candidates with similarities 0.9, 0.4, 0.7. -/
theorem c3_missing_results_counterexample :
    rerank true (RerankOutcome.ok none) [simDoc "a" (9/10), simDoc "b" (4/10), simDoc "c" (7/10)] 10
        = [] ∧
    rerank true (RerankOutcome.ok none) [simDoc "a" (9/10), simDoc "b" (4/10), simDoc "c" (7/10)] 10
        ≠ [simDoc "a" (9/10), simDoc "c" (7/10), simDoc "b" (4/10)] := by
  constructor
  · rfl
  · intro h
    exact List.noConfusion h

/-- C3 (amended): when the API key is missing, or the call raises a request
exception (service unreachable, or an error status such as unauthenticated
surfaced by raise_for_status), or any other exception is raised while calling
or decoding (e.g. an unparseable body), rerank deterministically returns the
input candidates sorted descending by their similarity field and truncated to
top_k, and retrieval never fails because the reranker is unavailable; however
a decoded success response that merely lacks the results key yields the empty
list instead of the sorted fallback. -/
theorem c3_rerank_fallback_sorted (hasKey : Bool) (outcome : RerankOutcome)
    (documents : List RDoc) (top_k : ℕ)
    (h : hasKey = false ∨ outcome = RerankOutcome.requestError ∨
      outcome = RerankOutcome.otherError) :
    rerank hasKey outcome documents top_k = (sortBySimDesc documents).take top_k := by
  have hnil : ∀ o : RerankOutcome, rerank hasKey o [] top_k = (sortBySimDesc []).take top_k := by
    intro o
    simp [rerank, sortBySimDesc]
  rcases h with h | h | h
  · subst h
    by_cases hd : documents = []
    · subst hd; exact hnil outcome
    · simp [rerank, hd]
  · subst h
    by_cases hd : documents = []
    · subst hd; exact hnil _
    · cases hasKey <;> simp [rerank, hd]
  · subst h
    by_cases hd : documents = []
    · subst hd; exact hnil _
    · cases hasKey <;> simp [rerank, hd]

/-- Witness for C3: the spec's own example - similarities 0.9, 0.4, 0.7 under
a simulated request failure come back in order 0.9, 0.7, 0.4. -/
theorem c3_rerank_fallback_sorted_witness :
    rerank true RerankOutcome.requestError
        [simDoc "a" (9/10), simDoc "b" (4/10), simDoc "c" (7/10)] 10
      = [simDoc "a" (9/10), simDoc "c" (7/10), simDoc "b" (4/10)] := by
  rw [c3_rerank_fallback_sorted true RerankOutcome.requestError
    [simDoc "a" (9/10), simDoc "b" (4/10), simDoc "c" (7/10)] 10 (Or.inr (Or.inl rfl))]
  with_unfolding_all decide

theorem dictLookup_append_left {β : Type} (l l' : List (String × β)) (cid : String) (v : β)
    (h : dictLookup l cid = some v) : dictLookup (l ++ l') cid = some v := by
  induction l with
  | nil => simp [dictLookup] at h
  | cons p rest ih =>
    obtain ⟨c, w⟩ := p
    by_cases hc : c = cid
    · subst hc
      simp only [dictLookup, if_pos rfl] at h
      simpa [dictLookup] using h
    · simp only [dictLookup, if_neg hc] at h
      simpa [dictLookup, hc] using ih h

theorem getChunk_cached (st : MetaStore) (cid : String) (c : RDoc)
    (h : dictLookup st.chunks cid = some c) : getChunk st cid = (some c, st, 0) := by
  unfold getChunk
  simp only [h]

theorem getChunk_chunks_extend (st : MetaStore) (x : String) :
    ∃ ext, (getChunk st x).2.1.chunks = st.chunks ++ ext := by
  unfold getChunk
  cases h1 : dictLookup st.chunks x with
  | some d => exact ⟨[], by simp [h1]⟩
  | none =>
    simp only [h1]
    cases h2 : rsplitUnderscore x with
    | none => exact ⟨[], by simp [h2]⟩
    | some p =>
      obtain ⟨sha1, idxStr⟩ := p
      simp only [h2]
      cases h3 : pyInt idxStr with
      | none => exact ⟨[], by simp [h3]⟩
      | some index =>
        simp only [h3]
        cases h4 : st.dir with
        | none => exact ⟨[], by simp [h4]⟩
        | some files =>
          simp only [h4]
          cases h5 : scanFiles x sha1 index files with
          | mk r n =>
            cases r with
            | none => exact ⟨[], by simp [h5]⟩
            | some doc => exact ⟨[(x, doc)], by simp [h5]⟩

theorem getChunk_preserves_cached (st : MetaStore) (x cid : String) (c : RDoc)
    (h : dictLookup st.chunks cid = some c) :
    dictLookup (getChunk st x).2.1.chunks cid = some c := by
  obtain ⟨ext, hext⟩ := getChunk_chunks_extend st x
  rw [hext]
  exact dictLookup_append_left _ _ _ _ h

theorem foldl_pureStep_mem_mono (l : List (String × ℚ)) :
    ∀ (acc : List RDoc × MetaStore) (x : RDoc), x ∈ acc.1 → x ∈ (l.foldl pureStep acc).1 := by
  induction l with
  | nil => intro acc x hx; simpa using hx
  | cons p rest ih =>
    intro acc x hx
    rw [List.foldl_cons]
    refine ih _ x ?_
    unfold pureStep
    cases (getChunk acc.2 p.1).1 <;> simp [hx]

theorem foldl_pureStep_mem (l : List (String × ℚ)) (cid : String) (s : ℚ) (c : RDoc) :
    ∀ acc : List RDoc × MetaStore,
      dictLookup acc.2.chunks cid = some c → (cid, s) ∈ l →
      { c with similarity := some (vecSimilarity s) } ∈ (l.foldl pureStep acc).1 := by
  induction l with
  | nil => intro acc _ hmem; simp at hmem
  | cons p rest ih =>
    intro acc hcache hmem
    rw [List.foldl_cons]
    rcases List.mem_cons.1 hmem with heq | hmem2
    · subst heq
      refine foldl_pureStep_mem_mono rest _ _ ?_
      unfold pureStep
      simp [getChunk_cached acc.2 cid c hcache]
    · refine ih _ ?_ hmem2
      unfold pureStep
      cases hg : (getChunk acc.2 p.1).1 <;> exact getChunk_preserves_cached _ _ _ _ hcache

theorem foldl_hydrateStep_length (l : List (String × ℚ)) :
    ∀ acc : List RDoc × MetaStore,
      ((l.foldl hydrateStep acc).1).length ≤ acc.1.length + l.length := by
  induction l with
  | nil => intro acc; simp
  | cons p rest ih =>
    intro acc
    rw [List.foldl_cons]
    refine le_trans (ih _) ?_
    have hstep : (hydrateStep acc p).1.length ≤ acc.1.length + 1 := by
      unfold hydrateStep
      cases (getChunk acc.2 p.1).1 <;> simp
    simp only [List.length_cons]
    omega

theorem foldl_rerankStep_length (documents : List RDoc) (items : List RerankItem) :
    ∀ acc : List RDoc,
      (items.foldl (rerankStep documents) acc).length ≤ acc.length + items.length := by
  induction items with
  | nil => intro acc; simp
  | cons it rest ih =>
    intro acc
    rw [List.foldl_cons]
    refine le_trans (ih _) ?_
    have hstep : (rerankStep documents acc it).length ≤ acc.length + 1 := by
      unfold rerankStep
      by_cases h : it.index < (documents.length : ℤ) <;> simp [h]
    simp only [List.length_cons]
    omega

theorem rerank_length_le_ten (hasKey : Bool) (outcome : RerankOutcome) (documents : List RDoc)
    (hresp : ∀ items, outcome = RerankOutcome.ok (some items) → items.length ≤ 10) :
    (rerank hasKey outcome documents 10).length ≤ 10 := by
  by_cases hd : documents = []
  · simp [rerank, hd]
  · unfold rerank
    rw [if_neg hd]
    by_cases hk : hasKey
    · simp only [hk]
      cases outcome with
      | requestError => simpa using List.length_take_le 10 (sortBySimDesc documents)
      | otherError => simpa using List.length_take_le 10 (sortBySimDesc documents)
      | ok results =>
        cases results with
        | none => simp
        | some items =>
          rw [if_neg (by simp)]
          dsimp only
          have hfold := foldl_rerankStep_length documents items []
          have hlen := hresp items rfl
          simp only [List.length_nil, Nat.zero_add] at hfold
          omega
    · simp only [hk]
      simpa using List.length_take_le 10 (sortBySimDesc documents)

/-- C8: in hybrid mode at most 20 fused candidates are hydrated and handed to
the rerank stage, and the search result therefore has at most min(top_k, 20)
entries, no matter how many fused candidates with positive scores exist;
the external reranker is assumed to honour its top_n of 10. -/
theorem c8_hybrid_at_most_twenty (ms : MetaStore) (vr br : List (String × ℚ)) (top_k : ℕ)
    (hasKey : Bool) (outcome : RerankOutcome)
    (hresp : ∀ items, outcome = RerankOutcome.ok (some items) → items.length ≤ 10) :
    (hydrateCombined ms ((combineResults vr br).take 20)).1.length ≤ 20 ∧
    (hybridTail ms vr br top_k hasKey outcome).1.length ≤ min top_k 20 := by
  have hhyd : (hydrateCombined ms ((combineResults vr br).take 20)).1.length ≤ 20 := by
    refine le_trans (foldl_hydrateStep_length _ _) ?_
    have := List.length_take_le 20 (combineResults vr br)
    simpa using this
  refine ⟨hhyd, ?_⟩
  unfold hybridTail
  by_cases hne : (hydrateCombined ms ((combineResults vr br).take 20)).1 ≠ []
  · rw [if_pos hne]
    have hr := rerank_length_le_ten hasKey outcome
      (hydrateCombined ms ((combineResults vr br).take 20)).1 hresp
    simp only [List.length_take]
    omega
  · rw [if_neg hne]
    push_neg at hne
    simp [hne]

/-- Witness for C8 at a concrete instance: an empty metadata store, one vector
candidate, a requested top_k of 5, and a failing reranker. -/
theorem c8_hybrid_at_most_twenty_witness :
    (hydrateCombined { chunks := [], dir := none }
        ((combineResults [("x", 2)] []).take 20)).1.length ≤ 20 ∧
    (hybridTail { chunks := [], dir := none } [("x", 2)] [] 5 true
        RerankOutcome.requestError).1.length ≤ min 5 20 :=
  c8_hybrid_at_most_twenty { chunks := [], dir := none } [("x", 2)] [] 5 true
    RerankOutcome.requestError (fun items h => RerankOutcome.noConfusion h)

/-- C9: in pure-vector mode and in score fusion, a vector candidate whose raw
score is at most zero (e.g. a negative cosine similarity) is assigned
similarity exactly 0 rather than 1/(1+score), and the candidate still appears
in the respective result list with that zero vector contribution. -/
theorem c9_nonpositive_score_is_zero :
    (∀ (ms : MetaStore) (vr : List (String × ℚ)) (top_k : ℕ) (cid : String) (s : ℚ) (c : RDoc),
      dictLookup ms.chunks cid = some c → (cid, s) ∈ vr.take top_k → s ≤ 0 →
      vecSimilarity s = 0 ∧
        { c with similarity := some 0 } ∈ (pureVectorTail ms vr top_k).1) ∧
    (∀ (vr br : List (String × ℚ)) (cid : String) (d : ℚ),
      (vr.map Prod.fst).Nodup → (br.map Prod.fst).Nodup → (cid, d) ∈ vr → d ≤ 0 →
      vecSideScore vr cid = 0 ∧
        (cid, bm25SideScore br cid) ∈ combineResults vr br) := by
  constructor
  · intro ms vr top_k cid s c hcache hmem hs
    have hv0 : vecSimilarity s = 0 := by
      unfold vecSimilarity
      rw [if_neg (not_lt.2 hs)]
    refine ⟨hv0, ?_⟩
    have := foldl_pureStep_mem (vr.take top_k) cid s c ([], ms) hcache hmem
    rwa [hv0] at this
  · intro vr br cid d hv hb hmem hd
    have hlook : dictLookup vr cid = some d := (mem_iff_dictLookup vr cid d hv).1 hmem
    have hv0 : vecSideScore vr cid = 0 := by
      unfold vecSideScore
      rw [hlook]
      have : vecSimilarity d = 0 := by
        unfold vecSimilarity
        rw [if_neg (not_lt.2 hd)]
      simp [this]
    refine ⟨hv0, ?_⟩
    refine (mem_combineResults_iff vr br cid _ hv hb).2 ?_
    refine ⟨Or.inl (List.mem_map_of_mem Prod.fst hmem), ?_⟩
    rw [hv0, zero_add]

/-- Witness for C9 at a concrete candidate with raw score -1: it is assigned
similarity 0 and still appears in the pure-vector result and the fused
result. -/
theorem c9_nonpositive_score_is_zero_witness :
    vecSimilarity (-1) = 0 ∧
    ({ defaultRDoc with similarity := some 0 } ∈
      (pureVectorTail { chunks := [("x", defaultRDoc)], dir := none } [("x", -1)] 1).1) ∧
    ("x", bm25SideScore [] "x") ∈ combineResults [("x", -1)] [] := by
  have h1 := c9_nonpositive_score_is_zero.1 { chunks := [("x", defaultRDoc)], dir := none }
    [("x", -1)] 1 "x" (-1) defaultRDoc (by with_unfolding_all decide)
    (by with_unfolding_all decide) (by with_unfolding_all decide)
  have h2 := c9_nonpositive_score_is_zero.2 [("x", -1)] [] "x" (-1)
    (by decide) (by decide) (by with_unfolding_all decide) (by with_unfolding_all decide)
  exact ⟨h1.1, h1.2, h2.2⟩

/-- C1 counterexample: a cosine-similarity score of 0.8 coming from an
inner-product shard does not pass through unchanged - _combine_results treats
every positive float score as a distance, so the fused score of a candidate
appearing only in the vector list with score 0.8 is 0.7 * (1/(1+0.8)) = 7/18,
not 0.7 * 0.8 = 0.56 as the claim (and the spec's fusion example) state. -/
theorem c1_similarity_passthrough_counterexample :
    combineResults [("a", 8/10)] [] = [("a", (7/10) * (1 / (1 + 8/10)))] ∧
    ¬ ("a", (7/10) * (8/10)) ∈ combineResults [("a", 8/10)] [] := by
  with_unfolding_all decide

/-- C1 (amended): the fused score of each chunk id equals
0.7 * vectorContribution + 0.3 * (lexicalScore / 10), where a chunk id absent
from a list receives zero contribution from it; however the vector
contribution applies 1/(1+score) to every positive raw score - similarity
scores from a cosine/inner-product shard included - and maps non-positive
scores to 0, with no pass-through of already-similarity scores. -/
theorem c1_fused_score_formula (vr br : List (String × ℚ)) (cid : String) (s : ℚ)
    (hv : (vr.map Prod.fst).Nodup) (hb : (br.map Prod.fst).Nodup) :
    (cid, s) ∈ combineResults vr br ↔
      ((cid ∈ vr.map Prod.fst ∨ cid ∈ br.map Prod.fst) ∧
        s = (match dictLookup vr cid with
             | some d => vecSimilarity d * (7/10)
             | none => 0) +
            (match dictLookup br cid with
             | some b => b / 10 * (3/10)
             | none => 0)) :=
  mem_combineResults_iff vr br cid s hv hb

/-- Witness for C1 (amended) at a concrete pair of candidate lists: one
candidate in both lists, one in the vector list only. -/
theorem c1_fused_score_formula_witness :
    ("a", vecSimilarity 2 * (7/10) + 5 / 10 * (3/10)) ∈ combineResults [("a", 2), ("b", 3)] [("a", 5)] := by
  refine (c1_fused_score_formula [("a", 2), ("b", 3)] [("a", 5)] "a"
    (vecSimilarity 2 * (7/10) + 5 / 10 * (3/10)) (by decide) (by decide)).2 ?_
  refine ⟨Or.inl (by decide), ?_⟩
  have h1 : dictLookup [("a", (2:ℚ)), ("b", 3)] "a" = some 2 := by decide
  have h2 : dictLookup [("a", (5:ℚ))] "a" = some 5 := by decide
  rw [h1, h2]

theorem dictLookup_mem {β : Type} (l : List (String × β)) (k : String) (v : β)
    (h : dictLookup l k = some v) : (k, v) ∈ l := by
  induction l with
  | nil => simp [dictLookup] at h
  | cons p rest ih =>
    obtain ⟨c, w⟩ := p
    by_cases hc : c = k
    · subst hc
      simp only [dictLookup, if_pos rfl, if_true] at h
      injection h with h
      subst h
      simp
    · simp only [dictLookup, if_neg hc] at h
      simp [ih h]

theorem pyIds_mem (chunk_ids : List String) (i : ℤ) (h0 : 0 ≤ i)
    (h1 : i < (chunk_ids.length : ℤ)) : pyIds chunk_ids i ∈ chunk_ids := by
  unfold pyIds
  rw [if_pos h0]
  have hlt : i.toNat < chunk_ids.length := by omega
  cases hg : chunk_ids.get? i.toNat with
  | none =>
    rw [List.get?_eq_none] at hg
    omega
  | some v =>
    simp only [Option.getD_some]
    exact List.get?_mem hg

theorem candidatesOf_fold_mem (chunk_ids : List String) :
    ∀ raw : List (ℤ × ℚ), ValidRaw raw →
    ∀ acc : List (String × ℚ), (∀ x ∈ acc, x.1 ∈ chunk_ids) →
    ∀ c ∈ raw.foldl (fun acc p =>
        if p.1 ≠ -1 ∧ p.1 < (chunk_ids.length : ℤ) then acc ++ [(pyIds chunk_ids p.1, p.2)]
        else acc) acc, c.1 ∈ chunk_ids := by
  intro raw
  induction raw with
  | nil => intro _ acc hacc c hc; exact hacc c (by simpa using hc)
  | cons p rest ih =>
    intro hvalid acc hacc c hc
    rw [List.foldl_cons] at hc
    refine ih (fun x hx => hvalid x (by simp [hx])) _ ?_ c hc
    intro x hx
    by_cases hcond : p.1 ≠ -1 ∧ p.1 < (chunk_ids.length : ℤ)
    · rw [if_pos hcond] at hx
      rcases List.mem_append.1 hx with hx | hx
      · exact hacc x hx
      · rw [List.mem_singleton] at hx
        subst hx
        have hp := hvalid p (by simp)
        have h0 : 0 ≤ p.1 := by
          rcases hp with hp | hp
          · exact absurd hp hcond.1
          · exact hp
        exact pyIds_mem chunk_ids p.1 h0 hcond.2
    · rw [if_neg hcond] at hx
      exact hacc x hx

theorem candidatesOf_mem (raw : List (ℤ × ℚ)) (chunk_ids : List String)
    (hvalid : ValidRaw raw) : ∀ c ∈ candidatesOf raw chunk_ids, c.1 ∈ chunk_ids :=
  candidatesOf_fold_mem chunk_ids raw hvalid [] (by simp)

theorem candidatesOf_nil_ids (raw : List (ℤ × ℚ)) : ValidRaw raw →
    candidatesOf raw [] = [] := by
  unfold candidatesOf
  induction raw with
  | nil => intro _; rfl
  | cons p rest ih =>
    intro hvalid
    rw [List.foldl_cons]
    have hcond : ¬(p.1 ≠ -1 ∧ p.1 < ((([] : List String).length : ℕ) : ℤ)) := by
      rcases hvalid p (by simp) with hp | hp
      · simp [hp]
      · intro hc
        simp only [List.length_nil, Nat.cast_zero] at hc
        omega
    rw [if_neg hcond]
    exact ih (fun x hx => hvalid x (by simp [hx]))

theorem foldl_append_eq_flatten {α β : Type} (f : α → List β) (l : List α) :
    ∀ acc : List β, l.foldl (fun acc kv => acc ++ f kv) acc = acc ++ (l.map f).flatten := by
  induction l with
  | nil => intro acc; simp
  | cons x rest ih =>
    intro acc
    rw [List.foldl_cons, ih]
    simp

theorem shardCandidates_attribution (st : FAISSState) (q : List ℚ) (top_k : ℕ)
    (kv : String × FaissIdx) (hvalid : ∀ v k, ValidRaw (kv.2.search v k)) :
    ∀ c ∈ shardCandidates st q top_k kv,
      ∃ L, dictLookup st.document_chunk_maps kv.1 = some L ∧ c.1 ∈ L := by
  intro c hc
  unfold shardCandidates at hc
  dsimp only at hc
  by_cases hids : (dictLookup st.document_chunk_maps kv.1).getD [] = []
  · rw [if_pos hids] at hc
    simp at hc
  · rw [if_neg hids] at hc
    cases hlook : dictLookup st.document_chunk_maps kv.1 with
    | none => rw [hlook] at hids; simp at hids
    | some L =>
      rw [hlook] at hc
      refine ⟨L, rfl, ?_⟩
      by_cases hip : kv.2.isIP
      · rw [if_pos hip] at hc
        by_cases hn : 0 < sumSq q
        · rw [if_pos hn] at hc
          exact candidatesOf_mem _ _ (hvalid _ _) c hc
        · rw [if_neg hn] at hc
          simp at hc
      · rw [if_neg hip] at hc
        exact candidatesOf_mem _ _ (hvalid _ _) c hc

/-- C4: with a configured index directory, a search scoped to a key absent
from the shard registry returns the empty result rather than an error, and a
search scoped to a present shard returns only ids drawn from that shard's
parallel id list (positions beyond the id list's length are dropped) - so a
search scoped to shard A never returns an id belonging to a different shard. -/
theorem c4_scoped_search_only_shard_ids (st : FAISSState) (q : List ℚ) (top_k : ℕ)
    (sha1 : String) (hdir : st.hasIndexDir = true) (hs : sha1 ≠ "")
    (hvalid : ∀ kv ∈ st.document_indices, ∀ v k, ValidRaw (kv.2.search v k)) :
    (dictLookup st.document_indices sha1 = none →
      faissSearch st q top_k (some sha1) = []) ∧
    (∀ idx L, dictLookup st.document_indices sha1 = some idx →
      dictLookup st.document_chunk_maps sha1 = some L →
      ∀ c ∈ faissSearch st q top_k (some sha1), c.1 ∈ L) := by
  have hdisp : faissSearch st q top_k (some sha1) = scopedSearch st q top_k sha1 := by
    unfold faissSearch
    rw [if_pos ⟨by simpa using hs, hdir⟩]
    rfl
  constructor
  · intro hnone
    rw [hdisp]
    unfold scopedSearch
    simp only [hnone]
  · intro idx L hidx hmap c hc
    rw [hdisp] at hc
    unfold scopedSearch at hc
    simp only [hidx, hmap, Option.getD_some] at hc
    exact candidatesOf_mem _ _ (hvalid (sha1, idx) (dictLookup_mem _ _ _ hidx) _ _) c hc

/-- C5: with a configured index directory, no global index and no scope key,
search over a non-empty registry whose shards all carry the same metric runs
an independent top-k search against every loaded shard, concatenates all
per-shard candidates, sorts them in the metric's natural direction (descending
for inner-product similarity, ascending for distance) and truncates to k,
exactly as the spec words it; an empty registry yields the empty result. -/
theorem c5_scatter_gather_matches_spec (st : FAISSState) (q : List ℚ) (top_k : ℕ) (m : Bool)
    (hdir : st.hasIndexDir = true) (hglob : st.globalIndex = none)
    (hm : ∀ kv ∈ st.document_indices, kv.2.isIP = m) :
    (st.document_indices ≠ [] →
      faissSearch st q top_k none = scatterGatherSpec st q top_k m) ∧
    (st.document_indices = [] → faissSearch st q top_k none = []) := by
  constructor
  · intro hne
    have hdisp : faissSearch st q top_k none = scatterSearch st q top_k := by
      unfold faissSearch
      rw [if_neg (by simp)]
      have hemp : st.document_indices.isEmpty = false := by
        cases h : st.document_indices with
        | nil => exact absurd h hne
        | cons kv0 rest => rfl
      rw [if_pos ⟨hdir, hemp⟩]
    rw [hdisp]
    unfold scatterSearch scatterGatherSpec
    rw [foldl_append_eq_flatten (shardCandidates st q top_k) st.document_indices []]
    simp only [List.nil_append]
    have hfirst : ((st.document_indices.head?).map (fun kv => kv.2.isIP)).getD false = m := by
      cases h : st.document_indices with
      | nil => exact absurd h hne
      | cons kv0 rest =>
        have hk := hm kv0 (by rw [h]; simp)
        simp [List.head?, hk]
    rw [hfirst]
    by_cases hall : (st.document_indices.map (shardCandidates st q top_k)).flatten ≠ []
    · rw [if_pos hall]
    · rw [if_neg hall]
      push_neg at hall
      rw [hall]
      cases m <;> simp [sortDescBySnd, sortAscBySnd]
  · intro hempty
    unfold faissSearch
    rw [if_neg (by simp)]
    rw [if_neg (by simp [hempty])]
    unfold globalSearch
    simp only [hglob]

/-- C6: a loaded shard whose id-mapping file is missing (or whose id list is
empty) never surfaces a result: a search scoped to it returns the empty
result, and every candidate of the scatter-gather result is attributable -
through membership of its id list - to a shard whose chunk-id map is present,
so a raw vector position of a degraded shard is never surfaced as a chunk
id. -/
theorem c6_degraded_shard_contributes_nothing (st : FAISSState) (q : List ℚ) (top_k : ℕ)
    (hdir : st.hasIndexDir = true)
    (hvalid : ∀ kv ∈ st.document_indices, ∀ v k, ValidRaw (kv.2.search v k)) :
    (∀ sha1, sha1 ≠ "" → (dictLookup st.document_chunk_maps sha1).getD [] = [] →
      faissSearch st q top_k (some sha1) = []) ∧
    (∀ c ∈ scatterSearch st q top_k, ∃ sha1 idx L, (sha1, idx) ∈ st.document_indices ∧
      dictLookup st.document_chunk_maps sha1 = some L ∧ c.1 ∈ L) := by
  constructor
  · intro sha1 hs hmap
    have hdisp : faissSearch st q top_k (some sha1) = scopedSearch st q top_k sha1 := by
      unfold faissSearch
      rw [if_pos ⟨by simpa using hs, hdir⟩]
      rfl
    rw [hdisp]
    unfold scopedSearch
    cases hidx : dictLookup st.document_indices sha1 with
    | none => rfl
    | some idx =>
      dsimp only
      rw [hmap]
      exact candidatesOf_nil_ids _ (hvalid (sha1, idx) (dictLookup_mem _ _ _ hidx) _ _)
  · intro c hc
    unfold scatterSearch at hc
    dsimp only at hc
    rw [foldl_append_eq_flatten (shardCandidates st q top_k) st.document_indices []] at hc
    simp only [List.nil_append] at hc
    by_cases hall : (st.document_indices.map (shardCandidates st q top_k)).flatten ≠ []
    · rw [if_pos hall] at hc
      have hmemall : c ∈ (st.document_indices.map (shardCandidates st q top_k)).flatten := by
        have hc2 := List.take_subset top_k _ hc
        by_cases hfip : ((st.document_indices.head?).map (fun kv => kv.2.isIP)).getD false
        · rw [if_pos hfip] at hc2
          exact (List.mergeSort_perm _ _).mem_iff.1 hc2
        · rw [if_neg hfip] at hc2
          exact (List.mergeSort_perm _ _).mem_iff.1 hc2
      rcases List.mem_flatten.1 hmemall with ⟨sub, hsub, hcsub⟩
      rcases List.mem_map.1 hsub with ⟨kv, hkv, rfl⟩
      rcases shardCandidates_attribution st q top_k kv (hvalid kv hkv) c hcsub with ⟨L, hL, hcL⟩
      exact ⟨kv.1, kv.2, L, by simpa using hkv, hL, hcL⟩
    · rw [if_neg hall] at hc
      simp at hc

theorem idxA_valid : ∀ v k, ValidRaw (idxA.search v k) := by
  intro v k p hp
  have hp2 : p ∈ [((0:ℤ), (9:ℚ)/10), (2, 1/2)] := List.take_subset k _ hp
  simp only [List.mem_cons, List.mem_singleton, List.not_mem_nil, or_false] at hp2
  rcases hp2 with rfl | rfl
  · exact Or.inr (by decide)
  · exact Or.inr (by decide)

theorem idxB_valid : ∀ v k, ValidRaw (idxB.search v k) := by
  intro v k p hp
  have hp2 : p ∈ [((1:ℤ), (3:ℚ)/4)] := List.take_subset k _ hp
  simp only [List.mem_singleton] at hp2
  subst hp2
  exact Or.inr (by decide)

theorem stW_valid : ∀ kv ∈ stW.document_indices, ∀ v k, ValidRaw (kv.2.search v k) := by
  intro kv hkv
  have hcases : kv = ("A", idxA) ∨ kv = ("B", idxB) := by
    simpa [stW] using hkv
  rcases hcases with rfl | rfl
  · exact idxA_valid
  · exact idxB_valid

theorem stD_valid : ∀ kv ∈ stD.document_indices, ∀ v k, ValidRaw (kv.2.search v k) := by
  intro kv hkv
  have hcases : kv = ("D", idxA) ∨ kv = ("B", idxB) := by
    simpa [stD] using hkv
  rcases hcases with rfl | rfl
  · exact idxA_valid
  · exact idxB_valid

theorem stW_allIP : ∀ kv ∈ stW.document_indices, kv.2.isIP = true := by
  intro kv hkv
  have hcases : kv = ("A", idxA) ∨ kv = ("B", idxB) := by
    simpa [stW] using hkv
  rcases hcases with rfl | rfl <;> rfl

/-- Witness for C4: scoping to the absent key C yields the empty result, and
the id a0 returned by a scope-A search belongs to shard A's id list. -/
theorem c4_scoped_search_only_shard_ids_witness :
    faissSearch stW [1] 2 (some "C") = [] ∧ ("a0" : String) ∈ ["a0", "a1", "a2"] := by
  have hC := c4_scoped_search_only_shard_ids stW [1] 2 "C" rfl (by decide) stW_valid
  have hA := c4_scoped_search_only_shard_ids stW [1] 2 "A" rfl (by decide) stW_valid
  refine ⟨hC.1 rfl, ?_⟩
  exact hA.2 idxA ["a0", "a1", "a2"] rfl rfl ("a0", (9:ℚ)/10) (by with_unfolding_all decide)

/-- Witness for C5: over the two-shard inner-product registry the scatter
branch coincides with the spec's concatenate-sort-truncate description. -/
theorem c5_scatter_gather_matches_spec_witness :
    faissSearch stW [1] 2 none = scatterGatherSpec stW [1] 2 true :=
  (c5_scatter_gather_matches_spec stW [1] 2 true rfl rfl stW_allIP).1
    (by
      rw [show stW.document_indices = [("A", idxA), ("B", idxB)] from rfl]
      exact List.cons_ne_nil _ _)

/-- Witness for C6: scoping to the degraded shard D yields the empty result,
and the candidate b1 of the scatter result is attributed to a shard with a
present id map. -/
theorem c6_degraded_shard_contributes_nothing_witness :
    faissSearch stD [1] 2 (some "D") = [] ∧
    (∃ sha1 idx L, (sha1, idx) ∈ stD.document_indices ∧
      dictLookup stD.document_chunk_maps sha1 = some L ∧ ("b1" : String) ∈ L) := by
  have h := c6_degraded_shard_contributes_nothing stD [1] 2 rfl stD_valid
  refine ⟨h.1 "D" (by decide) rfl, ?_⟩
  exact h.2 ("b1", (3:ℚ)/4) (by with_unfolding_all decide)

/-- C2 counterexample: when the id-list write fails after a successful
vector-data write, the build fails but the vector-data artifact remains on
disk - refuting the claim that both artifacts are discarded on any failure. -/
theorem c2_no_discard_counterexample :
    (buildIndexForDocument { fs := [], registryKeys := [], mapKeys := [] } [[1]] "d"
        true true false).2 = false ∧
    "d.faiss" ∈ (buildIndexForDocument { fs := [], registryKeys := [], mapKeys := [] } [[1]] "d"
        true true false).1.fs := by
  with_unfolding_all decide

/-- C2 (amended): the id-list artifact is written only after the vector-data
write succeeds, and the shard is published to the in-memory registry only
when both writes succeed - so no partially written shard ever becomes visible
to search through the registry; however, when the id-list write fails after
the vector-data write, the vector-data artifact is not discarded: the build
fails leaving exactly that artifact on disk, with the registry untouched. -/
theorem c2_build_ordering_and_publish (st : ShardStore) (embeddings : List (List ℚ))
    (sha1 : String) (hasIndexDir wFaissOk wIdsOk : Bool)
    (hids : sha1 ++ ".faiss.ids" ∉ st.fs) (hreg : sha1 ∉ st.registryKeys) :
    ((sha1 ++ ".faiss.ids") ∈
        (buildIndexForDocument st embeddings sha1 hasIndexDir wFaissOk wIdsOk).1.fs →
      wFaissOk = true ∧ wIdsOk = true ∧
      (sha1 ++ ".faiss") ∈
        (buildIndexForDocument st embeddings sha1 hasIndexDir wFaissOk wIdsOk).1.fs) ∧
    (sha1 ∈ (buildIndexForDocument st embeddings sha1 hasIndexDir wFaissOk wIdsOk).1.registryKeys →
      (buildIndexForDocument st embeddings sha1 hasIndexDir wFaissOk wIdsOk).2 = true ∧
      (sha1 ++ ".faiss") ∈
        (buildIndexForDocument st embeddings sha1 hasIndexDir wFaissOk wIdsOk).1.fs ∧
      (sha1 ++ ".faiss.ids") ∈
        (buildIndexForDocument st embeddings sha1 hasIndexDir wFaissOk wIdsOk).1.fs) ∧
    (embeddings ≠ [] → hasIndexDir = true → wFaissOk = true → wIdsOk = false →
      (buildIndexForDocument st embeddings sha1 hasIndexDir wFaissOk wIdsOk).2 = false ∧
      (buildIndexForDocument st embeddings sha1 hasIndexDir wFaissOk wIdsOk).1.fs
        = st.fs ++ [sha1 ++ ".faiss"] ∧
      (buildIndexForDocument st embeddings sha1 hasIndexDir wFaissOk wIdsOk).1.registryKeys
        = st.registryKeys) := by
  have hne : sha1 ++ ".faiss.ids" ≠ sha1 ++ ".faiss" := by
    intro h
    have hlen := congrArg String.length h
    rw [String.length_append, String.length_append] at hlen
    have h1 : (".faiss.ids" : String).length = 10 := rfl
    have h2 : (".faiss" : String).length = 6 := rfl
    rw [h1, h2] at hlen
    omega
  by_cases hemb : embeddings = []
  · have hB : buildIndexForDocument st embeddings sha1 hasIndexDir wFaissOk wIdsOk
        = (st, true) := by
      simp [buildIndexForDocument, hemb]
    rw [hB]
    exact ⟨fun hmem => absurd hmem hids, fun hmem => absurd hmem hreg,
      fun hne' _ _ _ => absurd hemb hne'⟩
  · cases hasIndexDir with
    | false =>
      have hB : buildIndexForDocument st embeddings sha1 false wFaissOk wIdsOk
          = (st, false) := by
        simp [buildIndexForDocument, hemb]
      rw [hB]
      exact ⟨fun hmem => absurd hmem hids, fun hmem => absurd hmem hreg,
        fun _ hdir' _ _ => Bool.noConfusion hdir'⟩
    | true =>
      cases wFaissOk with
      | false =>
        have hB : buildIndexForDocument st embeddings sha1 true false wIdsOk
            = (st, false) := by
          simp [buildIndexForDocument, hemb]
        rw [hB]
        exact ⟨fun hmem => absurd hmem hids, fun hmem => absurd hmem hreg,
          fun _ _ hW _ => Bool.noConfusion hW⟩
      | true =>
        cases wIdsOk with
        | false =>
          have hB : buildIndexForDocument st embeddings sha1 true true false
              = ({ st with fs := st.fs ++ [sha1 ++ ".faiss"] }, false) := by
            simp [buildIndexForDocument, hemb]
          rw [hB]
          refine ⟨?_, ?_, ?_⟩
          · intro hmem
            rcases List.mem_append.1 hmem with hmem | hmem
            · exact absurd hmem hids
            · rw [List.mem_singleton] at hmem
              exact absurd hmem hne
          · intro hmem
            exact absurd hmem hreg
          · intro _ _ _ _
            exact ⟨rfl, rfl, rfl⟩
        | true =>
          have hB : buildIndexForDocument st embeddings sha1 true true true
              = ({ fs := st.fs ++ [sha1 ++ ".faiss"] ++ [sha1 ++ ".faiss.ids"],
                   registryKeys := addKey st.registryKeys sha1,
                   mapKeys := addKey st.mapKeys sha1 }, true) := by
            simp [buildIndexForDocument, hemb]
          rw [hB]
          refine ⟨?_, ?_, ?_⟩
          · intro _
            exact ⟨rfl, rfl, by simp⟩
          · intro _
            exact ⟨rfl, by simp, by simp⟩
          · intro _ _ _ hI
            exact Bool.noConfusion hI

/-- Witness for C2 (amended): the concrete failed-ids-write run leaves only
the vector artifact on disk and publishes nothing. -/
theorem c2_build_ordering_and_publish_witness :
    (buildIndexForDocument { fs := [], registryKeys := [], mapKeys := [] } [[1]] "d"
        true true false).2 = false ∧
    (buildIndexForDocument { fs := [], registryKeys := [], mapKeys := [] } [[1]] "d"
        true true false).1.fs = ([] : List String) ++ ["d" ++ ".faiss"] ∧
    (buildIndexForDocument { fs := [], registryKeys := [], mapKeys := [] } [[1]] "d"
        true true false).1.registryKeys = [] :=
  (c2_build_ordering_and_publish { fs := [], registryKeys := [], mapKeys := [] } [[1]] "d"
    true true false (by simp) (by simp)).2.2 (by simp) rfl rfl rfl

/-- Witness for C7: the chunk reconstructed for h_0 is cached, and the second
get returns the identical value with zero files scanned. -/
theorem c7_reconstruction_idempotent_witness :
    dictLookup (getChunk stC7 "h_0").2.1.chunks "h_0" = some cW ∧
    getChunk (getChunk stC7 "h_0").2.1 "h_0" = (some cW, (getChunk stC7 "h_0").2.1, 0) :=
  c7_reconstruction_idempotent stC7 "h_0" cW rfl (by with_unfolding_all decide)

/-- Witness for C10: the id h_0 matches srcC10's hash and ordinal 0, yet
get_chunk returns none and leaves the store unchanged after scanning the one
file. -/
theorem c10_whitespace_text_not_found_witness :
    getChunk stC10 "h_0" = (none, stC10, 1) := by
  have h := c10_whitespace_text_not_found stC10 "h_0" "h" "0" 0 [jfC10] rfl
    (by with_unfolding_all decide) (by with_unfolding_all decide) rfl
    ⟨jfC10, by simp, srcC10, rfl, rfl, { text := " ", page := none, lines := [1, 2] }, rfl⟩
    (by
      intro jf hjf d hd hs cd hcd
      rw [List.mem_singleton] at hjf
      subst hjf
      rw [show jfC10.data = some srcC10 from rfl] at hd
      injection hd with hd
      subst hd
      have hget : srcC10.chunks.get? (0:ℤ).toNat
          = some { text := " ", page := none, lines := [1, 2] } := rfl
      rw [hget] at hcd
      injection hcd with hcd
      subst hcd
      rfl)
  exact h

end Rag

